import Mathlib

/-!
Verification of the uas-trajectory analyst scripts.

The repository holds three independent Python scripts:
* `compare.py` — loads two camera-position CSV tables and prints the mean
  absolute difference of the `X`, `Y`, `Z` columns.
* `exif/__init__.py` — decodes the DJI MakerNotes binary block
  (`read_makerNotes`) and converts between Euler angles and rotation
  matrices (`euler2rot`, `rot2euler`, `isRotationMatrix`).
* `trajectory.py` — merges an orientation table with a timestamp table,
  linearly interpolates RTK positions at photo timestamps
  (`interpolatePosition` via `np.interp`), applies the lever-arm
  correction (`leverArm`), scales accuracies and writes a fixed-column CSV.

Modelling conventions:
* Python float arithmetic in the tabular scripts is idealised as exact
  rational arithmetic (`ℚ`); the trigonometric conversions of the exif
  module are idealised over the reals (`ℝ`).
* Byte strings are `List Nat` (each byte `< 256` in practice; the proofs
  never need the bound).  A decoded IEEE-754 float is represented by the
  little-endian 32-bit pattern of its four payload bytes, which is a
  faithful identification of the unpacked value.
* Python exceptions (IndexError, struct.error, ValueError,
  UnicodeDecodeError) are an explicit `Except` error type; pandas
  dataframes are column-oriented structures of lists.
-/

namespace UasTrajectory

/-! ### compare.py

`compare.py` computes, for each of the columns X, Y, Z of two loaded
tables, `np.abs(base[c] - uas[c]).mean()` and prints the three results. -/

/-- A table holding the `X`, `Y`, `Z` columns used by `compare.py`. -/
structure XyzTable where
  x : List ℚ
  y : List ℚ
  z : List ℚ

/-- The mean `np.abs(d).mean()` of a difference vector `d`:
the mean of the absolute values (division by zero yields `0` for the
empty list, which no claim exercises). -/
def meanAbs (d : List ℚ) : ℚ :=
  (d.map (fun v => |v|)).sum / d.length

/-- The elementwise difference `base[c] - uas[c]` of two columns. -/
def diffCol (a b : List ℚ) : List ℚ :=
  List.zipWith (fun u v => u - v) a b

/-- The three per-axis mean absolute differences printed by `compare.py`:
`np.abs((base[c] - uas[c]).to_numpy()).mean()` for `c = X, Y, Z`. -/
def compareReport (base uas : XyzTable) : ℚ × ℚ × ℚ :=
  (meanAbs (diffCol base.x uas.x),
   meanAbs (diffCol base.y uas.y),
   meanAbs (diffCol base.z uas.z))

/-! ### trajectory.py — data model

The `.pos` file (after reprojection and the geoid step) is reduced to the
columns `GPST, X, Y, Z, sde, sdn, sdu` (line 260 of `trajectory.py`); the
orientation `.txt` file contributes `#Label, Yaw, Roll, Pitch`; the
`.MRK` file contributes `photoID, GPST, leverN, leverE, leverD` (the unit
suffixes are already stripped and the values parsed, a step no claim
touches). -/

/-- The position table `pos` after line 260 of `trajectory.py`. -/
structure PosTable where
  gpst : List ℚ
  x : List ℚ
  y : List ℚ
  z : List ℚ
  sde : List ℚ
  sdn : List ℚ
  sdu : List ℚ

/-- One row of the orientation `.txt` table (usecols `#Label, Yaw, Roll, Pitch`). -/
structure OrientRow where
  label : String
  yaw : ℚ
  roll : ℚ
  pitch : ℚ
deriving DecidableEq

/-- One row of the `.MRK` timestamp table after lever-arm parsing. -/
structure TimeRow where
  photoID : ℚ
  gpst : ℚ
  leverN : ℚ
  leverE : ℚ
  leverD : ℚ
deriving DecidableEq

/-- The merged per-photo dataframe `mrk` (column-oriented).  Before
`interpolatePosition` runs, the interpolated columns do not exist yet and
are modelled as empty lists; `interpolatePosition` assigns them wholesale. -/
structure Frame where
  label : List String
  yaw : List ℚ
  roll : List ℚ
  pitch : List ℚ
  gpst : List ℚ
  leverN : List ℚ
  leverE : List ℚ
  leverD : List ℚ
  x : List ℚ
  y : List ℚ
  z : List ℚ
  sde : List ℚ
  sdn : List ℚ
  sdu : List ℚ
deriving DecidableEq

/-- Linear interpolation `np.interp t xp fp` on the list of knots `(xp i, fp i)`:
left of the first knot it returns the first value, right of the last knot
the last value, and in between the linear interpolant anchored at the
left knot, exactly as numpy's piecewise-linear interpolant.  numpy raises
on an empty knot list; the `0` returned here is never exercised by a
claim. -/
def npInterp (t : ℚ) : List (ℚ × ℚ) → ℚ
  | [] => 0
  | [(_, y0)] => y0
  | (x0, y0) :: (x1, y1) :: rest =>
      if t < x0 then y0
      else if t < x1 then y0 + (y1 - y0) / (x1 - x0) * (t - x0)
      else npInterp t ((x1, y1) :: rest)

/-- Lines 94–99 of `trajectory.py`: interpolate the six position/accuracy
columns of `pos` at each photo timestamp `mrk["GPST"]`. -/
def interpolatePosition (pos : PosTable) (mrk : Frame) : Frame :=
  { mrk with
    x := mrk.gpst.map (fun t => npInterp t (pos.gpst.zip pos.x)),
    y := mrk.gpst.map (fun t => npInterp t (pos.gpst.zip pos.y)),
    z := mrk.gpst.map (fun t => npInterp t (pos.gpst.zip pos.z)),
    sde := mrk.gpst.map (fun t => npInterp t (pos.gpst.zip pos.sde)),
    sdn := mrk.gpst.map (fun t => npInterp t (pos.gpst.zip pos.sdn)),
    sdu := mrk.gpst.map (fun t => npInterp t (pos.gpst.zip pos.sdu)) }

/-- Lines 118–120 of `trajectory.py`:
`df["X"] += df["leverE"]/1000; df["Y"] += df["leverN"]/1000;
df["Z"] -= df["leverD"]/1000`. -/
def leverArm (df : Frame) : Frame :=
  { df with
    x := List.zipWith (fun xv e => xv + e / 1000) df.x df.leverE,
    y := List.zipWith (fun yv n => yv + n / 1000) df.y df.leverN,
    z := List.zipWith (fun zv d => zv - d / 1000) df.z df.leverD }

/-- The single hard error of the pipeline body:
`ValueError("Orientation and timestamp files do not match")`. -/
inductive PipelineError where
  | mismatch
deriving DecidableEq

/-- Lines 263–266 of `trajectory.py`: `orient.join(time).drop(["photoID"])`
is performed only when `len(time) == len(orient)`; otherwise a
`ValueError` is raised.  With the default range index the join pairs rows
positionally. -/
def mergeOrientTime (orient : List OrientRow) (time : List TimeRow) :
    Except PipelineError Frame :=
  if time.length = orient.length then
    .ok { label := orient.map (·.label),
          yaw := orient.map (·.yaw),
          roll := orient.map (·.roll),
          pitch := orient.map (·.pitch),
          gpst := time.map (·.gpst),
          leverN := time.map (·.leverN),
          leverE := time.map (·.leverE),
          leverD := time.map (·.leverD),
          x := [], y := [], z := [], sde := [], sdn := [], sdu := [] }
  else .error .mismatch

/-- Left-pad a digit string with zeros to five characters. -/
def zeroPad5 (s : String) : String :=
  String.mk (List.replicate (5 - s.length) '0') ++ s

/-- The `float_format="%.5f"` directive of `to_csv`, under the exact
rational idealisation: round to the nearest multiple of `1/100000` and
print with exactly five digits after the decimal point. -/
def fmt5 (q : ℚ) : String :=
  let n : Int := round (q * 100000)
  let sign := if n < 0 then "-" else ""
  let m := n.natAbs
  sign ++ toString (m / 100000) ++ "." ++ zeroPad5 (toString (m % 100000))

/-- Line 280 of `trajectory.py`: the output column order. -/
def reorder : List String :=
  ["#Label", "X", "Y", "Z", "Yaw", "Pitch", "Roll", "sde", "sdn", "sdu"]

/-- Lines 280–282 of `trajectory.py`: select the columns in `reorder`
order and emit `to_csv(index=False, float_format="%.5f")` — a header line
followed by one comma-joined line per row, every numeric cell through the
5-decimal formatter. -/
def exportCsv (df : Frame) : List String :=
  String.intercalate "," reorder ::
    (List.range df.label.length).map (fun i =>
      String.intercalate ","
        [df.label.getD i "", fmt5 (df.x.getD i 0), fmt5 (df.y.getD i 0),
         fmt5 (df.z.getD i 0), fmt5 (df.yaw.getD i 0), fmt5 (df.pitch.getD i 0),
         fmt5 (df.roll.getD i 0), fmt5 (df.sde.getD i 0), fmt5 (df.sdn.getD i 0),
         fmt5 (df.sdu.getD i 0)])

/-- The per-flight body of `trajectory.py` from the merge (line 263) to
the export (line 282): merge the orientation and timestamp tables,
interpolate, apply the lever arm, scale the accuracy columns by the
user-supplied factor, and produce the CSV lines. -/
def processFlight (pos : PosTable) (orient : List OrientRow)
    (time : List TimeRow) (accScale : ℚ) : Except PipelineError (List String) := do
  let mrk ← mergeOrientTime orient time
  let interpol := interpolatePosition pos mrk
  let cam := leverArm interpol
  let cam := { cam with
    sde := cam.sde.map (fun v => v * accScale),
    sdn := cam.sdn.map (fun v => v * accScale),
    sdu := cam.sdu.map (fun v => v * accScale) }
  pure (exportCsv cam)

/-! ### exif/__init__.py — the MakerNotes decoder

`read_makerNotes` scans the byte buffer from position `i` for a byte
equal to the next expected tag id, then reads the type byte at `i+2`, a
4-byte little-endian element count at `i+4:i+8`, and the payload, and
repeats until the values dictionary has no `None` entry left.  Python
exceptions are modelled explicitly:
* `indexError` — `makerNotes[i]` or `makerNotes[i+2]` out of range, or
  the `data[num-1]` access of a zero-element float field;
* `structError` — a `struct.unpack` slice shorter than its format;
* `valueError` — an unrecognised type byte;
* `headerNotInList` — `val_list.index(nextHeader)` misses (unreachable
  from the default entry point before all fields are populated);
* `unicodeError` — a char payload byte that is not single-byte UTF-8. -/

/-- The Python exceptions that `read_makerNotes` can raise. -/
inductive DecodeError where
  | indexError
  | structError
  | valueError
  | headerNotInList
  | unicodeError
deriving DecidableEq

/-- A decoded MakerNotes field value.  `struct.unpack` of a pad format
returns the empty tuple (`padVal`); a char field becomes the
space-joined, last-character-stripped string; a float field is kept as
the little-endian 32-bit pattern of the selected element. -/
inductive FieldValue where
  | padVal
  | strVal (s : String)
  | floatVal (bits : Nat)
deriving DecidableEq

/-- The eleven named fields of the `HEADERS` / `VALUES` dictionaries. -/
inductive Field where
  | MAKE
  | UNKNOWN
  | SPEED_X
  | SPEED_Y
  | SPEED_Z
  | PITCH
  | YAW
  | ROLL
  | CAMERA_PITCH
  | CAMERA_YAW
  | CAMERA_ROLL
deriving DecidableEq

/-- The lookup `key_list[val_list.index n]`: the field named by tag id `n`
(`HEADERS` maps the names to `0x01 .. 0x0b`). -/
def tagField (n : Nat) : Option Field :=
  if n = 1 then some .MAKE
  else if n = 2 then some .UNKNOWN
  else if n = 3 then some .SPEED_X
  else if n = 4 then some .SPEED_Y
  else if n = 5 then some .SPEED_Z
  else if n = 6 then some .PITCH
  else if n = 7 then some .YAW
  else if n = 8 then some .ROLL
  else if n = 9 then some .CAMERA_PITCH
  else if n = 10 then some .CAMERA_YAW
  else if n = 11 then some .CAMERA_ROLL
  else none

/-- The `values` dictionary: one optional entry per field. -/
structure Values where
  make : Option FieldValue
  unknown : Option FieldValue
  speedX : Option FieldValue
  speedY : Option FieldValue
  speedZ : Option FieldValue
  pitch : Option FieldValue
  yaw : Option FieldValue
  roll : Option FieldValue
  cameraPitch : Option FieldValue
  cameraYaw : Option FieldValue
  cameraRoll : Option FieldValue
deriving DecidableEq

/-- The module-level `VALUES` dictionary: every entry `None`. -/
def initValues : Values :=
  ⟨none, none, none, none, none, none, none, none, none, none, none⟩

/-- Dictionary lookup `values[header]`. -/
def getField : Field → Values → Option FieldValue
  | .MAKE, v => v.make
  | .UNKNOWN, v => v.unknown
  | .SPEED_X, v => v.speedX
  | .SPEED_Y, v => v.speedY
  | .SPEED_Z, v => v.speedZ
  | .PITCH, v => v.pitch
  | .YAW, v => v.yaw
  | .ROLL, v => v.roll
  | .CAMERA_PITCH, v => v.cameraPitch
  | .CAMERA_YAW, v => v.cameraYaw
  | .CAMERA_ROLL, v => v.cameraRoll

/-- Dictionary assignment `values[header] = data`. -/
def setField : Field → FieldValue → Values → Values
  | .MAKE, d, v => { v with make := some d }
  | .UNKNOWN, d, v => { v with unknown := some d }
  | .SPEED_X, d, v => { v with speedX := some d }
  | .SPEED_Y, d, v => { v with speedY := some d }
  | .SPEED_Z, d, v => { v with speedZ := some d }
  | .PITCH, d, v => { v with pitch := some d }
  | .YAW, d, v => { v with yaw := some d }
  | .ROLL, d, v => { v with roll := some d }
  | .CAMERA_PITCH, d, v => { v with cameraPitch := some d }
  | .CAMERA_YAW, d, v => { v with cameraYaw := some d }
  | .CAMERA_ROLL, d, v => { v with cameraRoll := some d }

/-- The summand `1 for key, val in values.items() if val is None`. -/
def noneCnt : Option FieldValue → Nat
  | none => 1
  | some _ => 0

/-- The count `sumNones = sum([1 for key, val in values.items() if val is None])`. -/
def nonesCount (v : Values) : Nat :=
  noneCnt v.make + noneCnt v.unknown + noneCnt v.speedX + noneCnt v.speedY +
    noneCnt v.speedZ + noneCnt v.pitch + noneCnt v.yaw + noneCnt v.roll +
    noneCnt v.cameraPitch + noneCnt v.cameraYaw + noneCnt v.cameraRoll

/-- All eleven named fields are populated (non-`None`). -/
def allPopulated (v : Values) : Prop :=
  v.make.isSome = true ∧ v.unknown.isSome = true ∧ v.speedX.isSome = true ∧
    v.speedY.isSome = true ∧ v.speedZ.isSome = true ∧ v.pitch.isSome = true ∧
    v.yaw.isSome = true ∧ v.roll.isSome = true ∧ v.cameraPitch.isSome = true ∧
    v.cameraYaw.isSome = true ∧ v.cameraRoll.isSome = true

instance (v : Values) : Decidable (allPopulated v) := by
  unfold allPopulated; infer_instance

/-- The unpack `struct.unpack(b"<L", bs)`: the little-endian 32-bit value of a
4-byte slice (any other length is a `struct.error`, checked by callers). -/
def le32 : List Nat → Nat
  | [a, b, c, d] => a + 256 * b + 65536 * c + 16777216 * d
  | _ => 0

/-- The 4 little-endian bytes of a 32-bit value. -/
def le32enc (n : Nat) : List Nat :=
  [n % 256, n / 256 % 256, n / 65536 % 256, n / 16777216 % 256]

/-- Split a payload into consecutive 4-byte groups, one per unpacked
float (`struct.unpack(b"<fff...", payload)`). -/
def chunks4 : List Nat → List (List Nat)
  | a :: b :: c :: d :: rest => [a, b, c, d] :: chunks4 rest
  | _ => []

/-- The payload byte count declared by a recognised type byte:
`num * 1` for pad (0x01) and char (0x02), `num * 4` for float (0x0b);
`none` is the `raise ValueError` branch. -/
def typeSize (ty num : Nat) : Option Nat :=
  if ty = 1 then some num
  else if ty = 2 then some num
  else if ty = 11 then some (4 * num)
  else none

/-- Decode a payload of exactly the declared size:
* pad — `struct.unpack` of `b"x" * num` returns the empty tuple;
* char — each byte is `.decode()`d (single-byte UTF-8, so bytes `≥ 0x80`
  raise), the characters are joined with `" "` and the final character is
  stripped by `[:-1]`;
* float — the unpacked floats are indexed at `num - 1`; for `num = 0`
  the index `-1` into the empty tuple is an IndexError. -/
def decodePayload (ty num : Nat) (payload : List Nat) : Except DecodeError FieldValue :=
  if ty = 1 then .ok .padVal
  else if ty = 2 then
    if payload.all (fun b => decide (b < 128)) then
      .ok (.strVal ((String.intercalate " "
        (payload.map (fun b => String.singleton (Char.ofNat b)))).dropRight 1))
    else .error .unicodeError
  else if ty = 11 then
    match (chunks4 payload)[num - 1]? with
    | some c => .ok (.floatVal (le32 c))
    | none => .error .indexError
  else .error .valueError

/-- One structural-fuel unfolding of the `while True:` loop of
`read_makerNotes`.  The fuel is only a termination device: the loop
variable `i` strictly increases each iteration, and the wrapper below
supplies more fuel than `buf.length - i`, so the `fuel = 0` branch is
never reached on the wrapper's calls. -/
def readLoop (buf : List Nat) : Nat → Values → Nat → Nat → Except DecodeError Values
  | 0, _, _, _ => .error .indexError
  | fuel + 1, values, i, nextHeader =>
    if hi : i < buf.length then
      if buf[i] = nextHeader then
        match tagField nextHeader with
        | none => .error .headerNotInList
        | some field =>
          match buf[i + 2]? with
          | none => .error .indexError
          | some ty =>
            let numBytes := (buf.drop (i + 4)).take 4
            if numBytes.length = 4 then
              let num := le32 numBytes
              match typeSize ty num with
              | none => .error .valueError
              | some size =>
                let payload := (buf.drop (i + 8)).take size
                if payload.length = size then
                  match decodePayload ty num payload with
                  | .error e => .error e
                  | .ok data =>
                    let values' := setField field data values
                    if nonesCount values' = 0 then .ok values'
                    else readLoop buf fuel values' (i + 8 + size) (nextHeader + 1)
                else .error .structError
            else .error .structError
      else readLoop buf fuel values (i + 1) nextHeader
    else .error .indexError

/-- The loop of `read_makerNotes` from state `(values, i, nextHeader)`. -/
def readMakerNotesAux (buf : List Nat) (values : Values) (i nextHeader : Nat) :
    Except DecodeError Values :=
  readLoop buf (buf.length + 1 - i) values i nextHeader

/-- The entry point `read_makerNotes(makerNotes, values=VALUES, i=0, starting_header=0x01)`.
The Python default `values` argument is the shared module-level `VALUES`
dictionary, mutated in place; here the dictionary is passed and returned
explicitly, so a repeated call with the shared default is modelled by
feeding the previous call's result back in. -/
def read_makerNotes (makerNotes : List Nat) (values : Values := initValues)
    (i : Nat := 0) (startingHeader : Nat := 1) : Except DecodeError Values :=
  readMakerNotesAux makerNotes values i startingHeader

/-- An encoded MakerNotes field block: the 8 header bytes
(tag id, a filler byte, the type byte, a filler byte, then the 4-byte
little-endian element count) followed by the payload.  The scanner never
inspects the two filler bytes. -/
structure Block where
  tag : Nat
  fill1 : Nat
  ty : Nat
  fill3 : Nat
  num : Nat
  payload : List Nat
deriving DecidableEq

/-- The bytes of a block as they appear in the buffer. -/
def Block.encode (b : Block) : List Nat :=
  b.tag :: b.fill1 :: b.ty :: b.fill3 :: (le32enc b.num ++ b.payload)

/-- A block is well formed for expected tag `t` when it carries tag `t`,
an in-range element count, a recognised type byte, and a payload of
exactly the declared size (char payloads single-byte-decodable, float
counts at least one). -/
def wellFormedBlock (t : Nat) (b : Block) : Prop :=
  b.tag = t ∧ b.num < 4294967296 ∧
    ((b.ty = 1 ∧ b.payload.length = b.num) ∨
     (b.ty = 2 ∧ b.payload.length = b.num ∧ ∀ c ∈ b.payload, c < 128) ∨
     (b.ty = 11 ∧ b.payload.length = 4 * b.num ∧ 1 ≤ b.num))

instance (t : Nat) (b : Block) : Decidable (wellFormedBlock t b) := by
  unfold wellFormedBlock; infer_instance

/-- The value a well-formed block decodes to. -/
def blockValue (b : Block) : FieldValue :=
  ((decodePayload b.ty b.num b.payload).toOption).getD .padVal

/-! ### exif/__init__.py — Euler angles and rotation matrices

`euler2rot` builds `Rz @ Ry @ Rx`; `isRotationMatrix` checks the
Frobenius norm of `I - Rᵀ R` against `1e-6`; `rot2euler` asserts that
check and inverts the composition with `arctan2`, with a gimbal-lock
branch when `sqrt(R₀₀² + R₁₀²) < 1e-6`.  numpy's float trigonometry is
idealised over `ℝ`. -/

/-- The `Rx` factor of `euler2rot`. -/
noncomputable def rotX (r : ℝ) : Matrix (Fin 3) (Fin 3) ℝ :=
  !![1, 0, 0;
     0, Real.cos r, -Real.sin r;
     0, Real.sin r, Real.cos r]

/-- The `Ry` factor of `euler2rot`. -/
noncomputable def rotY (p : ℝ) : Matrix (Fin 3) (Fin 3) ℝ :=
  !![Real.cos p, 0, Real.sin p;
     0, 1, 0;
     -Real.sin p, 0, Real.cos p]

/-- The `Rz` factor of `euler2rot`. -/
noncomputable def rotZ (y : ℝ) : Matrix (Fin 3) (Fin 3) ℝ :=
  !![Real.cos y, -Real.sin y, 0;
     Real.sin y, Real.cos y, 0;
     0, 0, 1]

/-- The composition `euler2rot(R, P, Y) = Rz.dot(Ry.dot(Rx))`. -/
noncomputable def euler2rot (r p y : ℝ) : Matrix (Fin 3) (Fin 3) ℝ :=
  rotZ y * (rotY p * rotX r)

/-- The check `isRotationMatrix`: `np.linalg.norm(I - rot_t @ rot) < 1e-6`
(the Frobenius norm, the square root of the sum of squared entries). -/
def isRotationMatrix (rot : Matrix (Fin 3) (Fin 3) ℝ) : Prop :=
  Real.sqrt (∑ i, ∑ j, ((1 : Matrix (Fin 3) (Fin 3) ℝ) - rot.transpose * rot) i j ^ 2) < 1e-6

/-- The two-argument arctangent `np.arctan2 y x`, realised as the argument of the complex number
`x + y·i`, with values in `(-π, π]`. -/
noncomputable def arctan2 (y x : ℝ) : ℝ :=
  Complex.arg (x + y * Complex.I)

open Classical in
/-- The inverse `rot2euler`: the assert of `isRotationMatrix` is modelled by
returning `none` when the check fails; otherwise the non-singular or
gimbal-lock branch produces the `(roll, pitch, yaw)` triple. -/
noncomputable def rot2euler (rot : Matrix (Fin 3) (Fin 3) ℝ) : Option (ℝ × ℝ × ℝ) :=
  if isRotationMatrix rot then
    let sy := Real.sqrt (rot 0 0 * rot 0 0 + rot 1 0 * rot 1 0)
    if sy < 1e-6 then
      some (arctan2 (-rot 1 2) (rot 1 1), arctan2 (-rot 2 0) sy, 0)
    else
      some (arctan2 (rot 2 1) (rot 2 2), arctan2 (-rot 2 0) sy,
            arctan2 (rot 1 0) (rot 0 0))
  else none

/-! ## Theorems -/

/-! ### C6 — compare.py symmetry -/

theorem zipWith_absSub_comm (a b : List ℚ) :
    List.zipWith (fun u v => |u - v|) a b = List.zipWith (fun u v => |u - v|) b a := by
  induction a generalizing b with
  | nil => cases b <;> simp
  | cons x xs ih =>
    cases b with
    | nil => simp
    | cons y ys => simp [abs_sub_comm, ih]

theorem meanAbs_diffCol_comm (a b : List ℚ) :
    meanAbs (diffCol a b) = meanAbs (diffCol b a) := by
  unfold meanAbs diffCol
  rw [List.map_zipWith, List.map_zipWith, zipWith_absSub_comm, List.length_zipWith,
    List.length_zipWith, Nat.min_comm]

/-- C6: for every pair of equal-length X/Y/Z tables, the comparison
script's report — per axis, the mean of the absolute elementwise
differences — is unchanged when the roles of the two tables (and hence
the sign of every elementwise difference) are swapped. -/
theorem compare_meanAbsDiff_symmetric (base uas : XyzTable)
    (hx : base.x.length = uas.x.length) (hy : base.y.length = uas.y.length)
    (hz : base.z.length = uas.z.length) :
    compareReport base uas = compareReport uas base := by
  unfold compareReport
  rw [meanAbs_diffCol_comm base.x uas.x, meanAbs_diffCol_comm base.y uas.y,
    meanAbs_diffCol_comm base.z uas.z]

/-- Witness for C6 at a concrete pair of 2-row tables. -/
theorem compare_meanAbsDiff_symmetric_witness :
    (XyzTable.mk [1, 2] [3, 4] [5, 6]).x.length = (XyzTable.mk [2, 0] [1, 7] [5, 5]).x.length ∧
    (XyzTable.mk [1, 2] [3, 4] [5, 6]).y.length = (XyzTable.mk [2, 0] [1, 7] [5, 5]).y.length ∧
    (XyzTable.mk [1, 2] [3, 4] [5, 6]).z.length = (XyzTable.mk [2, 0] [1, 7] [5, 5]).z.length ∧
    compareReport (XyzTable.mk [1, 2] [3, 4] [5, 6]) (XyzTable.mk [2, 0] [1, 7] [5, 5]) =
      compareReport (XyzTable.mk [2, 0] [1, 7] [5, 5]) (XyzTable.mk [1, 2] [3, 4] [5, 6]) :=
  ⟨by decide, by decide, by decide,
    compare_meanAbsDiff_symmetric _ _ (by decide) (by decide) (by decide)⟩

/-! ### C4 / C10 — leverArm -/

theorem zipWith_inverse {α β : Type} (f g : α → β → α)
    (h : ∀ a e, g (f a e) e = a) :
    ∀ (xs : List α) (es : List β), xs.length = es.length →
      List.zipWith g (List.zipWith f xs es) es = xs := by
  intro xs
  induction xs with
  | nil => intro es _; simp
  | cons x xs ih =>
    intro es hlen
    cases es with
    | nil => simp at hlen
    | cons e es => simp_all [h]

/-- C4: the lever-arm correction is exactly reversible — subtracting the
applied offsets (`leverE/1000` from `X`, `leverN/1000` from `Y`, adding
`leverD/1000` back to `Z`) recovers the pre-correction `X`, `Y`, `Z`
columns exactly, for all input values (exact rational idealisation of
the float arithmetic). -/
theorem leverArm_reversible (df : Frame)
    (hx : df.x.length = df.leverE.length) (hy : df.y.length = df.leverN.length)
    (hz : df.z.length = df.leverD.length) :
    List.zipWith (fun xv e => xv - e / 1000) (leverArm df).x df.leverE = df.x ∧
    List.zipWith (fun yv n => yv - n / 1000) (leverArm df).y df.leverN = df.y ∧
    List.zipWith (fun zv d => zv + d / 1000) (leverArm df).z df.leverD = df.z := by
  refine ⟨?_, ?_, ?_⟩
  · exact zipWith_inverse _ _ (fun a e => by ring) df.x df.leverE hx
  · exact zipWith_inverse _ _ (fun a e => by ring) df.y df.leverN hy
  · exact zipWith_inverse _ _ (fun a e => by ring) df.z df.leverD hz

/-- A one-row frame used by concrete witnesses. -/
def sampleFrame : Frame :=
  { label := ["100_0018_0001"], yaw := [10], roll := [20], pitch := [30],
    gpst := [5], leverN := [36], leverE := [-192], leverD := [91],
    x := [7], y := [9], z := [11], sde := [2], sdn := [3], sdu := [4] }

/-- Witness for C4 at a concrete one-row frame. -/
theorem leverArm_reversible_witness :
    sampleFrame.x.length = sampleFrame.leverE.length ∧
    sampleFrame.y.length = sampleFrame.leverN.length ∧
    sampleFrame.z.length = sampleFrame.leverD.length ∧
    (List.zipWith (fun xv e => xv - e / 1000) (leverArm sampleFrame).x sampleFrame.leverE =
        sampleFrame.x ∧
      List.zipWith (fun yv n => yv - n / 1000) (leverArm sampleFrame).y sampleFrame.leverN =
        sampleFrame.y ∧
      List.zipWith (fun zv d => zv + d / 1000) (leverArm sampleFrame).z sampleFrame.leverD =
        sampleFrame.z) :=
  ⟨by decide, by decide, by decide,
    leverArm_reversible sampleFrame (by decide) (by decide) (by decide)⟩

theorem zipWith_getElem? {α β γ : Type} (f : α → β → γ) (us : List α)
    (vs : List β) (i : Nat) (u : α) (v : β) (hu : us[i]? = some u)
    (hv : vs[i]? = some v) : (List.zipWith f us vs)[i]? = some (f u v) := by
  induction us generalizing vs i with
  | nil => simp at hu
  | cons x xs ih =>
    cases vs with
    | nil => simp at hv
    | cons y ys =>
      cases i with
      | zero => simp_all
      | succ n => simpa using ih ys n (by simpa using hu) (by simpa using hv)

/-- C10: `leverArm` modifies only the `X`, `Y`, `Z` columns of its input
dataframe: every other column (`#Label`, `Yaw`, `Pitch`, `Roll`, `GPST`,
`sde`, `sdn`, `sdu`, `leverN`, `leverE`, `leverD`) is left unchanged, and
the row order is preserved — the `i`-th output position row is computed
from the `i`-th input row. -/
theorem leverArm_frame_effect (df : Frame) :
    (leverArm df).label = df.label ∧ (leverArm df).yaw = df.yaw ∧
    (leverArm df).pitch = df.pitch ∧ (leverArm df).roll = df.roll ∧
    (leverArm df).gpst = df.gpst ∧ (leverArm df).sde = df.sde ∧
    (leverArm df).sdn = df.sdn ∧ (leverArm df).sdu = df.sdu ∧
    (leverArm df).leverN = df.leverN ∧ (leverArm df).leverE = df.leverE ∧
    (leverArm df).leverD = df.leverD ∧
    (∀ (i : Nat) (xv e : ℚ), df.x[i]? = some xv → df.leverE[i]? = some e →
      (leverArm df).x[i]? = some (xv + e / 1000)) ∧
    (∀ (i : Nat) (yv n : ℚ), df.y[i]? = some yv → df.leverN[i]? = some n →
      (leverArm df).y[i]? = some (yv + n / 1000)) ∧
    (∀ (i : Nat) (zv d : ℚ), df.z[i]? = some zv → df.leverD[i]? = some d →
      (leverArm df).z[i]? = some (zv - d / 1000)) := by
  refine ⟨rfl, rfl, rfl, rfl, rfl, rfl, rfl, rfl, rfl, rfl, rfl, ?_, ?_, ?_⟩
  · intro i xv e hx he
    exact zipWith_getElem? (fun xv e => xv + e / 1000) df.x df.leverE i xv e hx he
  · intro i yv n hy hn
    exact zipWith_getElem? (fun yv n => yv + n / 1000) df.y df.leverN i yv n hy hn
  · intro i zv d hz hd
    exact zipWith_getElem? (fun zv d => zv - d / 1000) df.z df.leverD i zv d hz hd

/-- Witness for C10 at the concrete one-row frame. -/
theorem leverArm_frame_effect_witness :
    (leverArm sampleFrame).gpst = sampleFrame.gpst ∧
    (leverArm sampleFrame).x[0]? = some ((7 : ℚ) + (-192) / 1000) := by
  have h := leverArm_frame_effect sampleFrame
  exact ⟨h.2.2.2.2.1, h.2.2.2.2.2.2.2.2.2.2.2.1 0 7 (-192) (by decide) (by decide)⟩

/-! ### C5 — mismatched row counts -/

/-- C5: whenever the orientation table and the timestamp table have
different row counts, the pipeline body raises the hard
`ValueError` before any interpolation or output is produced, and the
positional join of the two tables is performed only when the row counts
are equal. -/
theorem pipeline_mismatch_raises :
    (∀ (pos : PosTable) (orient : List OrientRow) (time : List TimeRow) (accScale : ℚ),
      orient.length ≠ time.length →
      processFlight pos orient time accScale = .error .mismatch) ∧
    (∀ (orient : List OrientRow) (time : List TimeRow) (mrk : Frame),
      mergeOrientTime orient time = .ok mrk → orient.length = time.length) := by
  constructor
  · intro pos orient time accScale hne
    have hne' : time.length ≠ orient.length := fun h => hne h.symm
    simp [processFlight, mergeOrientTime, hne']
  · intro orient time mrk h
    unfold mergeOrientTime at h
    by_cases hl : time.length = orient.length
    · exact hl.symm
    · simp [hl] at h

/-- Witness for C5: a 1-row orientation table against an empty timestamp
table errors out, and a successful merge of two empty tables implies the
counts agree. -/
theorem pipeline_mismatch_raises_witness :
    ([OrientRow.mk "a" 0 0 0].length ≠ ([] : List TimeRow).length ∧
      processFlight (PosTable.mk [] [] [] [] [] [] []) [OrientRow.mk "a" 0 0 0] [] 1 =
        .error .mismatch) ∧
    (mergeOrientTime ([] : List OrientRow) ([] : List TimeRow) =
        .ok (Frame.mk [] [] [] [] [] [] [] [] [] [] [] [] [] []) →
      ([] : List OrientRow).length = ([] : List TimeRow).length) :=
  ⟨⟨by decide, pipeline_mismatch_raises.1 _ _ _ 1 (by decide)⟩,
    fun h => pipeline_mismatch_raises.2 [] [] _ h⟩

/-! ### C7 — output column order and formatting -/

/-- C7: every CSV produced by the pipeline body consists of the header
`#Label,X,Y,Z,Yaw,Pitch,Roll,sde,sdn,sdu` — the columns in exactly that
order — followed by data lines whose cells appear in that same order,
every floating-point cell written through the 5-decimal fixed
formatter. -/
theorem export_columns (pos : PosTable) (orient : List OrientRow)
    (time : List TimeRow) (accScale : ℚ) (out : List String)
    (h : processFlight pos orient time accScale = .ok out) :
    out.head? = some "#Label,X,Y,Z,Yaw,Pitch,Roll,sde,sdn,sdu" ∧
    ∀ line ∈ out.tail, ∃ (lab : String) (xv yv zv yaw pitch roll se sn su : ℚ),
      line = String.intercalate ","
        [lab, fmt5 xv, fmt5 yv, fmt5 zv, fmt5 yaw, fmt5 pitch, fmt5 roll,
         fmt5 se, fmt5 sn, fmt5 su] := by
  unfold processFlight at h
  by_cases hl : time.length = orient.length
  · simp [mergeOrientTime, hl] at h
    subst h
    constructor
    · rfl
    · intro line hline
      simp only [exportCsv, List.tail_cons, List.mem_map, List.mem_range] at hline
      obtain ⟨i, -, hline⟩ := hline
      exact ⟨_, _, _, _, _, _, _, _, _, _, hline.symm⟩
  · simp [mergeOrientTime, hl] at h

/-- Witness for C7: processing a single empty flight yields exactly the
header line. -/
theorem export_columns_witness :
    processFlight (PosTable.mk [] [] [] [] [] [] []) [] [] 1 =
        .ok ["#Label,X,Y,Z,Yaw,Pitch,Roll,sde,sdn,sdu"] ∧
    ["#Label,X,Y,Z,Yaw,Pitch,Roll,sde,sdn,sdu"].head? =
        some "#Label,X,Y,Z,Yaw,Pitch,Roll,sde,sdn,sdu" :=
  ⟨by rfl,
    (export_columns (PosTable.mk [] [] [] [] [] [] []) [] [] 1 _ (by rfl)).1⟩

/-! ### C3 — interpolation at an exact knot -/

theorem map_fst_zip_sublist {α β : Type} :
    ∀ (as : List α) (bs : List β), ((as.zip bs).map Prod.fst).Sublist as := by
  intro as
  induction as with
  | nil => intro bs; simp
  | cons a as ih =>
    intro bs
    cases bs with
    | nil => simp
    | cons b bs => simpa using (ih bs).cons₂ a

theorem sorted_getElem?_le {l : List ℚ} (hs : List.Sorted (· < ·) l) {m n : Nat}
    {a b : ℚ} (hm : l[m]? = some a) (hn : l[n]? = some b) (hmn : m ≤ n) : a ≤ b := by
  obtain ⟨hm', ha⟩ := List.getElem?_eq_some.mp hm
  obtain ⟨hn', hb⟩ := List.getElem?_eq_some.mp hn
  rcases Nat.eq_or_lt_of_le hmn with h | h
  · subst h; rw [← ha, ← hb]
  · have := List.Sorted.rel_get_of_lt hs (a := ⟨m, hm'⟩) (b := ⟨n, hn'⟩) h
    simp only [List.get_eq_getElem] at this
    rw [← ha, ← hb]
    exact this.le

/-- At a knot whose abscissa occurs in a strictly increasing knot list,
`npInterp` returns the stored ordinate exactly. -/
theorem npInterp_at_knot :
    ∀ (pts : List (ℚ × ℚ)) (k : Nat) (t v : ℚ),
      List.Sorted (· < ·) (pts.map Prod.fst) → pts[k]? = some (t, v) →
      npInterp t pts = v := by
  intro pts
  induction pts with
  | nil => intro k t v _ hk; simp at hk
  | cons hd tl ih =>
    intro k t v hs hk
    obtain ⟨x0, y0⟩ := hd
    cases tl with
    | nil =>
      cases k with
      | zero =>
        simp only [List.getElem?_cons_zero, Option.some_inj, Prod.mk.injEq] at hk
        obtain ⟨rfl, rfl⟩ := hk
        simp [npInterp]
      | succ n => simp at hk
    | cons hd2 tl2 =>
      obtain ⟨x1, y1⟩ := hd2
      have hx01 : x0 < x1 := by
        simp only [List.map_cons, List.sorted_cons] at hs
        exact hs.1 x1 (by simp)
      cases k with
      | zero =>
        simp only [List.getElem?_cons_zero, Option.some_inj, Prod.mk.injEq] at hk
        obtain ⟨rfl, rfl⟩ := hk
        rw [npInterp, if_neg (lt_irrefl x0), if_pos hx01]
        ring
      | succ n =>
        have hk' : ((x1, y1) :: tl2)[n]? = some (t, v) := by simpa using hk
        have hs' : List.Sorted (· < ·) (((x1, y1) :: tl2).map Prod.fst) := by
          simp only [List.map_cons, List.sorted_cons] at hs ⊢
          exact hs.2
        have hfst : (((x1, y1) :: tl2).map Prod.fst)[n]? = some t := by
          rw [List.getElem?_map Prod.fst ((x1, y1) :: tl2) n, hk']
          rfl
        have h0 : (((x1, y1) :: tl2).map Prod.fst)[0]? = some x1 := by simp
        have ht : x1 ≤ t := sorted_getElem?_le hs' h0 hfst (Nat.zero_le n)
        rw [npInterp, if_neg (not_lt.mpr (le_trans hx01.le ht)),
          if_neg (not_lt.mpr ht)]
        exact ih n t v hs' hk'

theorem npInterp_zip_at_knot (xs ys : List ℚ) (k : Nat) (t v : ℚ)
    (hs : List.Sorted (· < ·) xs) (hx : xs[k]? = some t) (hy : ys[k]? = some v) :
    npInterp t (xs.zip ys) = v := by
  have hzip : (xs.zip ys)[k]? = some (t, v) :=
    zipWith_getElem? Prod.mk xs ys k t v hx hy
  have hsz : List.Sorted (· < ·) ((xs.zip ys).map Prod.fst) :=
    List.Pairwise.sublist (map_fst_zip_sublist xs ys) hs
  exact npInterp_at_knot (xs.zip ys) k t v hsz hzip

/-- C3: if the position table's `GPST` column is strictly increasing and
a photo timestamp equals the `k`-th entry of that column, then
`interpolatePosition` assigns to that photo row exactly the `X`, `Y`,
`Z`, `sde`, `sdn`, `sdu` values stored in the position table at that
timestamp, unchanged. -/
theorem interpolatePosition_exact (pos : PosTable) (mrk : Frame) (k i : Nat)
    (t vx vy vz ve vn vu : ℚ)
    (hs : List.Sorted (· < ·) pos.gpst)
    (ht : pos.gpst[k]? = some t)
    (hvx : pos.x[k]? = some vx) (hvy : pos.y[k]? = some vy)
    (hvz : pos.z[k]? = some vz) (hve : pos.sde[k]? = some ve)
    (hvn : pos.sdn[k]? = some vn) (hvu : pos.sdu[k]? = some vu)
    (hi : mrk.gpst[i]? = some t) :
    (interpolatePosition pos mrk).x[i]? = some vx ∧
    (interpolatePosition pos mrk).y[i]? = some vy ∧
    (interpolatePosition pos mrk).z[i]? = some vz ∧
    (interpolatePosition pos mrk).sde[i]? = some ve ∧
    (interpolatePosition pos mrk).sdn[i]? = some vn ∧
    (interpolatePosition pos mrk).sdu[i]? = some vu := by
  refine ⟨?_, ?_, ?_, ?_, ?_, ?_⟩ <;>
    simp only [interpolatePosition, List.getElem?_map, hi, Option.map_some'] <;>
    rw [npInterp_zip_at_knot pos.gpst _ k t _ hs ht (by assumption)]

/-- Witness for C3 at a concrete 2-row position table and a 1-photo
timestamp table hitting the second knot exactly. -/
theorem interpolatePosition_exact_witness :
    (List.Sorted (· < ·) (PosTable.mk [0, 1] [10, 20] [30, 40] [50, 60] [2, 3] [4, 5] [6, 7]).gpst ∧
      (Frame.mk ["a"] [0] [0] [0] [1] [0] [0] [0] [] [] [] [] [] []).gpst[0]? = some 1) ∧
    (interpolatePosition (PosTable.mk [0, 1] [10, 20] [30, 40] [50, 60] [2, 3] [4, 5] [6, 7])
        (Frame.mk ["a"] [0] [0] [0] [1] [0] [0] [0] [] [] [] [] [] [])).x[0]? = some 20 := by
  have h := interpolatePosition_exact
    (PosTable.mk [0, 1] [10, 20] [30, 40] [50, 60] [2, 3] [4, 5] [6, 7])
    (Frame.mk ["a"] [0] [0] [0] [1] [0] [0] [0] [] [] [] [] [] [])
    1 0 1 20 40 60 3 5 7 (by decide) (by decide) (by decide) (by decide)
    (by decide) (by decide) (by decide) (by decide) (by decide)
  exact ⟨⟨by decide, by decide⟩, h.1⟩

/-! ### read_makerNotes — scanning lemmas

The loop index `i` strictly increases on every iteration, so any fuel
larger than `buf.length - i` produces the same result; this yields a
clean unfolding equation for `readMakerNotesAux`. -/

theorem readLoop_congr :
    ∀ (f1 : Nat) (buf : List Nat) (f2 : Nat) (vals : Values) (i nh : Nat),
      buf.length + 1 - i ≤ f1 → buf.length + 1 - i ≤ f2 →
      readLoop buf f1 vals i nh = readLoop buf f2 vals i nh := by
  intro f1
  induction f1 with
  | zero =>
    intro buf f2 vals i nh h1 _
    have hi : ¬ i < buf.length := by omega
    cases f2 with
    | zero => rfl
    | succ f2 => simp only [readLoop, dif_neg hi]
  | succ f1 ih =>
    intro buf f2 vals i nh h1 h2
    cases f2 with
    | zero =>
      have hi : ¬ i < buf.length := by omega
      simp only [readLoop, dif_neg hi]
    | succ f2 =>
      simp only [readLoop]
      by_cases hi : i < buf.length
      · simp only [dif_pos hi]
        by_cases hb : buf[i] = nh
        · simp only [if_pos hb]
          cases htf : tagField nh with
          | none => rfl
          | some field =>
            cases hty : buf[i + 2]? with
            | none => rfl
            | some ty =>
              by_cases hnb : ((buf.drop (i + 4)).take 4).length = 4
              · simp only [if_pos hnb]
                cases hts : typeSize ty (le32 ((buf.drop (i + 4)).take 4)) with
                | none => rfl
                | some size =>
                  by_cases hpl : ((buf.drop (i + 8)).take size).length = size
                  · simp only [if_pos hpl]
                    cases hdp : decodePayload ty (le32 ((buf.drop (i + 4)).take 4))
                        ((buf.drop (i + 8)).take size) with
                    | error e => rfl
                    | ok data =>
                      by_cases hnc : nonesCount (setField field data vals) = 0
                      · simp only [if_pos hnc]
                      · simp only [if_neg hnc]
                        exact ih buf f2 _ (i + 8 + size) (nh + 1) (by omega) (by omega)
                  · simp only [if_neg hpl]
              · simp only [if_neg hnb]
        · simp only [if_neg hb]
          exact ih buf f2 vals (i + 1) nh (by omega) (by omega)
      · simp only [dif_neg hi]

/-- The defining one-step unfolding of the `read_makerNotes` loop. -/
theorem readAux_unfold (buf : List Nat) (vals : Values) (i nh : Nat) :
    readMakerNotesAux buf vals i nh =
      if hi : i < buf.length then
        if buf[i] = nh then
          match tagField nh with
          | none => .error .headerNotInList
          | some field =>
            match buf[i + 2]? with
            | none => .error .indexError
            | some ty =>
              if ((buf.drop (i + 4)).take 4).length = 4 then
                match typeSize ty (le32 ((buf.drop (i + 4)).take 4)) with
                | none => .error .valueError
                | some size =>
                  if ((buf.drop (i + 8)).take size).length = size then
                    match decodePayload ty (le32 ((buf.drop (i + 4)).take 4))
                        ((buf.drop (i + 8)).take size) with
                    | .error e => .error e
                    | .ok data =>
                      if nonesCount (setField field data vals) = 0 then
                        .ok (setField field data vals)
                      else readMakerNotesAux buf (setField field data vals)
                        (i + 8 + size) (nh + 1)
                  else .error .structError
              else .error .structError
        else readMakerNotesAux buf vals (i + 1) nh
      else .error .indexError := by
  unfold readMakerNotesAux
  by_cases hi : i < buf.length
  · have hsplit : buf.length + 1 - i = (buf.length - i) + 1 := by omega
    rw [hsplit]
    simp only [readLoop, dif_pos hi]
    by_cases hb : buf[i] = nh
    · simp only [if_pos hb]
      cases htf : tagField nh with
      | none => rfl
      | some field =>
        cases hty : buf[i + 2]? with
        | none => rfl
        | some ty =>
          by_cases hnb : ((buf.drop (i + 4)).take 4).length = 4
          · simp only [if_pos hnb]
            cases hts : typeSize ty (le32 ((buf.drop (i + 4)).take 4)) with
            | none => rfl
            | some size =>
              by_cases hpl : ((buf.drop (i + 8)).take size).length = size
              · simp only [if_pos hpl]
                cases hdp : decodePayload ty (le32 ((buf.drop (i + 4)).take 4))
                    ((buf.drop (i + 8)).take size) with
                | error e => rfl
                | ok data =>
                  by_cases hnc : nonesCount (setField field data vals) = 0
                  · simp only [if_pos hnc]
                  · simp only [if_neg hnc]
                    exact readLoop_congr (buf.length - i) buf
                      (buf.length + 1 - (i + 8 + size)) (setField field data vals)
                      (i + 8 + size) (nh + 1) (by omega) (by omega)
              · simp only [if_neg hpl]
          · simp only [if_neg hnb]
    · simp only [if_neg hb]
      exact readLoop_congr (buf.length - i) buf (buf.length + 1 - (i + 1)) vals
        (i + 1) nh (by omega) (by omega)
  · cases hfuel : buf.length + 1 - i with
    | zero => simp only [readLoop, dif_neg hi]
    | succ m => simp only [readLoop, dif_neg hi]

/-- Scanning past the end of the buffer raises `IndexError`. -/
theorem readAux_oob (buf : List Nat) (vals : Values) (i nh : Nat)
    (hi : ¬ i < buf.length) :
    readMakerNotesAux buf vals i nh = .error .indexError := by
  rw [readAux_unfold, dif_neg hi]

/-- A non-matching byte is skipped: the scan moves to `i + 1`. -/
theorem readAux_skip (buf : List Nat) (vals : Values) (i nh : Nat)
    (hi : i < buf.length) (hne : buf[i] ≠ nh) :
    readMakerNotesAux buf vals i nh = readMakerNotesAux buf vals (i + 1) nh := by
  rw [readAux_unfold, dif_pos hi, if_neg hne]

/-- If the expected tag byte never occurs at or after position `i`, the
scan falls off the end of the buffer and raises `IndexError`. -/
theorem readAux_tag_missing (buf : List Nat) (vals : Values) (i nh : Nat)
    (h : ∀ j, i ≤ j → ∀ (hj : j < buf.length), buf[j] ≠ nh) :
    readMakerNotesAux buf vals i nh = .error .indexError := by
  suffices H : ∀ (n i : Nat), buf.length - i ≤ n →
      (∀ j, i ≤ j → ∀ (hj : j < buf.length), buf[j] ≠ nh) →
      readMakerNotesAux buf vals i nh = .error .indexError by
    exact H (buf.length - i) i le_rfl h
  intro n
  induction n with
  | zero =>
    intro i hn _
    exact readAux_oob buf vals i nh (by omega)
  | succ n ih =>
    intro i hn hmiss
    by_cases hi : i < buf.length
    · rw [readAux_skip buf vals i nh hi (hmiss i le_rfl hi)]
      exact ih (i + 1) (by omega) (fun j hj hjl => hmiss j (by omega) hjl)
    · exact readAux_oob buf vals i nh hi

/-- Skipping a run of non-matching bytes: the scan state at `i` equals
the scan state at `j` when no byte in `[i, j)` matches the expected tag. -/
theorem readAux_skip_until (buf : List Nat) (vals : Values) (nh i j : Nat)
    (hij : i ≤ j) (hjl : j ≤ buf.length)
    (h : ∀ m, i ≤ m → m < j → ∀ (hm : m < buf.length), buf[m] ≠ nh) :
    readMakerNotesAux buf vals i nh = readMakerNotesAux buf vals j nh := by
  suffices H : ∀ (n i : Nat), j - i ≤ n → i ≤ j →
      (∀ m, i ≤ m → m < j → ∀ (hm : m < buf.length), buf[m] ≠ nh) →
      readMakerNotesAux buf vals i nh = readMakerNotesAux buf vals j nh by
    exact H (j - i) i le_rfl hij h
  intro n
  induction n with
  | zero =>
    intro i hn hij' _
    have : i = j := by omega
    rw [this]
  | succ n ih =>
    intro i hn hij' hmiss
    rcases Nat.eq_or_lt_of_le hij' with heq | hlt
    · rw [heq]
    · have hi : i < buf.length := by omega
      rw [readAux_skip buf vals i nh hi (hmiss i le_rfl hlt hi)]
      exact ih (i + 1) (by omega) (by omega) (fun m hm hmj hml => hmiss m (by omega) hmj hml)

theorem le32enc_length (n : Nat) : (le32enc n).length = 4 := by
  simp [le32enc]

theorem le32_le32enc (n : Nat) (h : n < 4294967296) : le32 (le32enc n) = n := by
  simp only [le32enc, le32]
  omega

theorem Block.encode_length (b : Block) : b.encode.length = 8 + b.payload.length := by
  simp [Block.encode, le32enc]
  omega

theorem chunks4_length : ∀ l : List Nat, (chunks4 l).length = l.length / 4 := by
  intro l
  match l with
  | [] => simp [chunks4]
  | [a] => simp [chunks4]
  | [a, b] => simp [chunks4]
  | [a, b, c] => simp [chunks4]
  | a :: b :: c :: d :: rest =>
    simp only [chunks4, List.length_cons, chunks4_length rest]
    omega

/-- A well-formed block decodes successfully, to its `blockValue`. -/
theorem decodePayload_wf (nh : Nat) (b : Block) (hwf : wellFormedBlock nh b) :
    decodePayload b.ty b.num b.payload = .ok (blockValue b) := by
  obtain ⟨-, -, hcases⟩ := hwf
  rcases hcases with ⟨h1, hlen⟩ | ⟨h2, hlen, hchar⟩ | ⟨h11, hlen, hpos⟩
  · simp [decodePayload, blockValue, Except.toOption, h1]
  · have hall : b.payload.all (fun c => decide (c < 128)) = true := by
      simp only [List.all_eq_true, decide_eq_true_eq]
      exact hchar
    simp [decodePayload, blockValue, Except.toOption, h2, hall]
  · have hlt : b.num - 1 < (chunks4 b.payload).length := by
      rw [chunks4_length, hlen]
      omega
    have hc : (chunks4 b.payload)[b.num - 1]? =
        some ((chunks4 b.payload).get ⟨b.num - 1, hlt⟩) := by
      rw [List.getElem?_eq_getElem hlt, List.get_eq_getElem]
    simp [decodePayload, blockValue, Except.toOption, h11, hc]

/-- Parsing one well-formed block: when the scan sits at the start of a
well-formed block for the expected tag, it decodes the block, stores the
value under the block's field, and either stops (no `None` left) or
resumes immediately after the payload looking for the next tag. -/
theorem readAux_parse_block (pre rest : List Nat) (b : Block) (vals : Values)
    (nh : Nat) (f : Field) (hwf : wellFormedBlock nh b) (hf : tagField nh = some f) :
    readMakerNotesAux (pre ++ (b.encode ++ rest)) vals pre.length nh =
      if nonesCount (setField f (blockValue b) vals) = 0 then
        .ok (setField f (blockValue b) vals)
      else
        readMakerNotesAux (pre ++ (b.encode ++ rest))
          (setField f (blockValue b) vals) (pre.length + 8 + b.payload.length)
          (nh + 1) := by
  obtain ⟨htag, hnum, hcases⟩ := hwf
  have hlen : (pre ++ (b.encode ++ rest)).length =
      pre.length + (8 + b.payload.length) + rest.length := by
    simp [Block.encode_length]
    omega
  have hi : pre.length < (pre ++ (b.encode ++ rest)).length := by omega
  have hgot : (pre ++ (b.encode ++ rest))[pre.length]? = some b.tag := by
    rw [List.getElem?_append_right (le_refl pre.length)]
    simp [Block.encode]
  obtain ⟨hi', hgete⟩ := List.getElem?_eq_some.mp hgot
  have hty2 : (pre ++ (b.encode ++ rest))[pre.length + 2]? = some b.ty := by
    rw [List.getElem?_append_right (by omega : pre.length ≤ pre.length + 2)]
    have : pre.length + 2 - pre.length = 2 := by omega
    rw [this]
    simp [Block.encode]
  have hregroup4 : pre ++ (b.encode ++ rest) =
      (pre ++ [b.tag, b.fill1, b.ty, b.fill3]) ++
        (le32enc b.num ++ (b.payload ++ rest)) := by
    simp [Block.encode, List.append_assoc]
  have hlen4 : (pre ++ [b.tag, b.fill1, b.ty, b.fill3]).length = pre.length + 4 := by
    simp
  have hdrop4 : (pre ++ (b.encode ++ rest)).drop (pre.length + 4) =
      le32enc b.num ++ (b.payload ++ rest) := by
    rw [hregroup4, ← hlen4, List.drop_left]
  have htake4 : ((pre ++ (b.encode ++ rest)).drop (pre.length + 4)).take 4 =
      le32enc b.num := by
    rw [hdrop4, ← le32enc_length b.num, List.take_left]
  have hregroup8 : pre ++ (b.encode ++ rest) =
      (pre ++ ([b.tag, b.fill1, b.ty, b.fill3] ++ le32enc b.num)) ++
        (b.payload ++ rest) := by
    simp [Block.encode, List.append_assoc]
  have hlen8 : (pre ++ ([b.tag, b.fill1, b.ty, b.fill3] ++ le32enc b.num)).length =
      pre.length + 8 := by
    simp [le32enc]
  have hdrop8 : (pre ++ (b.encode ++ rest)).drop (pre.length + 8) =
      b.payload ++ rest := by
    rw [hregroup8, ← hlen8, List.drop_left]
  have htakepl : (b.payload ++ rest).take b.payload.length = b.payload :=
    List.take_left b.payload rest
  have hts : typeSize b.ty b.num = some b.payload.length := by
    rcases hcases with ⟨h1, hl⟩ | ⟨h2, hl, -⟩ | ⟨h11, hl, -⟩
    · simp [typeSize, h1, hl]
    · simp [typeSize, h2, hl]
    · simp [typeSize, h11, hl]
  have hdp : decodePayload b.ty b.num b.payload = .ok (blockValue b) :=
    decodePayload_wf nh b ⟨htag, hnum, hcases⟩
  rw [readAux_unfold, dif_pos hi]
  rw [if_pos (hgete.trans htag)]
  simp only [hf, hty2, htake4, le32enc_length, le32_le32enc b.num hnum, hts,
    hdrop8, htakepl, hdp]
  simp

/-- The tag id of each named field (the `HEADERS` dictionary). -/
def fieldTag : Field → Nat
  | .MAKE => 1
  | .UNKNOWN => 2
  | .SPEED_X => 3
  | .SPEED_Y => 4
  | .SPEED_Z => 5
  | .PITCH => 6
  | .YAW => 7
  | .ROLL => 8
  | .CAMERA_PITCH => 9
  | .CAMERA_YAW => 10
  | .CAMERA_ROLL => 11

theorem tagField_eq_fieldTag {m : Nat} {f : Field} (h : tagField m = some f) :
    m = fieldTag f := by
  have hm : m < 12 := by
    by_contra hbig
    push_neg at hbig
    have h1 : tagField m = none := by
      unfold tagField
      repeat rw [if_neg (by omega)]
    rw [h1] at h
    exact Option.noConfusion h
  interval_cases m <;> simp_all [tagField] <;> (subst h; rfl)

theorem tagField_inj {m n : Nat} {f : Field} (hm : tagField m = some f)
    (hn : tagField n = some f) : m = n := by
  rw [tagField_eq_fieldTag hm, tagField_eq_fieldTag hn]

theorem getField_setField_ne (f g : Field) (d : FieldValue) (vals : Values)
    (hne : g ≠ f) : getField g (setField f d vals) = getField g vals := by
  cases f <;> cases g <;> simp_all [getField, setField]

theorem nonesCount_setField_none (f : Field) (d : FieldValue) (vals : Values)
    (h : getField f vals = none) :
    nonesCount (setField f d vals) + 1 = nonesCount vals := by
  cases f <;>
    (simp only [getField] at h; simp [setField, nonesCount, h, noneCnt]; try omega)

theorem nonesCount_setField_le (f : Field) (d : FieldValue) (vals : Values) :
    nonesCount (setField f d vals) ≤ nonesCount vals := by
  cases f <;> (cases vals; simp [setField, nonesCount, noneCnt]; try omega)

theorem noneCnt_zero_isSome (o : Option FieldValue) (h : noneCnt o = 0) :
    o.isSome = true := by
  cases o <;> simp_all [noneCnt]

theorem nonesCount_zero_allPopulated (v : Values) (h : nonesCount v = 0) :
    allPopulated v := by
  unfold nonesCount at h
  refine ⟨noneCnt_zero_isSome _ (by omega), noneCnt_zero_isSome _ (by omega),
    noneCnt_zero_isSome _ (by omega), noneCnt_zero_isSome _ (by omega),
    noneCnt_zero_isSome _ (by omega), noneCnt_zero_isSome _ (by omega),
    noneCnt_zero_isSome _ (by omega), noneCnt_zero_isSome _ (by omega),
    noneCnt_zero_isSome _ (by omega), noneCnt_zero_isSome _ (by omega),
    noneCnt_zero_isSome _ (by omega)⟩

/-- Consuming a run of adjacent well-formed blocks whose tags continue
the expected sequence: if every upcoming field is still unpopulated and
the `None` count equals the number of remaining blocks, the scan decodes
every block and stops with a fully populated dictionary. -/
theorem readAux_consume :
    ∀ (blocks : List Block) (pre suffix : List Nat) (vals : Values) (nh : Nat),
      blocks ≠ [] →
      (∀ k (hk : k < blocks.length), wellFormedBlock (nh + k) (blocks.get ⟨k, hk⟩)) →
      (∀ k (hk : k < blocks.length), ∃ f, tagField (nh + k) = some f ∧
        getField f vals = none) →
      nonesCount vals = blocks.length →
      ∃ v, readMakerNotesAux (pre ++ ((blocks.map Block.encode).flatten ++ suffix))
          vals pre.length nh = .ok v ∧ nonesCount v = 0 := by
  intro blocks
  induction blocks with
  | nil => intro pre suffix vals nh hne _ _ _; exact absurd rfl hne
  | cons b bs ih =>
    intro pre suffix vals nh _ hwf hflds hcnt
    obtain ⟨f, hf, hnone⟩ := hflds 0 (by simp)
    have hwf0 : wellFormedBlock nh b := by
      have := hwf 0 (by simp)
      simpa using this
    have hbuf : pre ++ (((b :: bs).map Block.encode).flatten ++ suffix) =
        pre ++ (b.encode ++ ((bs.map Block.encode).flatten ++ suffix)) := by
      simp [List.append_assoc]
    have hcnt' : nonesCount (setField f (blockValue b) vals) + 1 = nonesCount vals :=
      nonesCount_setField_none f (blockValue b) vals hnone
    rw [hbuf, readAux_parse_block pre ((bs.map Block.encode).flatten ++ suffix) b vals nh f
      (by simpa using hwf0) hf]
    by_cases hz : nonesCount (setField f (blockValue b) vals) = 0
    · rw [if_pos hz]
      exact ⟨_, rfl, hz⟩
    · rw [if_neg hz]
      have hbs : bs ≠ [] := by
        intro hbs
        subst hbs
        simp at hcnt
        omega
      have hregroup : pre ++ (b.encode ++ ((bs.map Block.encode).flatten ++ suffix)) =
          (pre ++ b.encode) ++ ((bs.map Block.encode).flatten ++ suffix) := by
        simp [List.append_assoc]
      have hpos : pre.length + 8 + b.payload.length = (pre ++ b.encode).length := by
        simp [Block.encode_length]
        omega
      rw [hregroup, hpos]
      refine ih (pre ++ b.encode) suffix (setField f (blockValue b) vals) (nh + 1)
        hbs ?_ ?_ ?_
      · intro k hk
        have := hwf (k + 1) (by simpa using Nat.succ_lt_succ hk)
        have harith : nh + (k + 1) = nh + 1 + k := by omega
        rw [harith] at this
        simpa using this
      · intro k hk
        obtain ⟨g, hg, hgnone⟩ := hflds (k + 1) (by simpa using Nat.succ_lt_succ hk)
        have harith : nh + (k + 1) = nh + 1 + k := by omega
        rw [harith] at hg
        refine ⟨g, hg, ?_⟩
        have hgf : g ≠ f := by
          intro heq
          subst heq
          have := tagField_inj hg hf
          omega
        rw [getField_setField_ne f g (blockValue b) vals hgf]
        exact hgnone
      · simp only [List.length_cons] at hcnt
        omega

/-- Skipping an entire prefix containing no byte equal to the expected
tag: the scan starting at `0` reaches the end of the prefix. -/
theorem readAux_skip_prefix (p tail2 : List Nat) (vals : Values) (nh : Nat)
    (hp : ∀ c ∈ p, c ≠ nh) :
    readMakerNotesAux (p ++ tail2) vals 0 nh =
      readMakerNotesAux (p ++ tail2) vals p.length nh := by
  apply readAux_skip_until (p ++ tail2) vals nh 0 p.length (Nat.zero_le _)
  · rw [List.length_append]
    omega
  · intro m _ hmj hm
    have hl : (p ++ tail2)[m] = p[m] := List.getElem_append_left hmj
    rw [hl]
    exact hp p[m] (List.getElem_mem hmj)

/-- C1: `read_makerNotes` (a) returns a dictionary with all eleven named
fields populated on every well-formed buffer — an optional prefix free of
the first tag byte, then the eleven expected tag blocks `0x01 .. 0x0b` in
ascending order, each with a recognised type code and a payload of the
declared size, then arbitrary trailing bytes; (b) fails with an
`IndexError` whenever the required tag byte is never found at or after
the scan position before the buffer is exhausted; and (c) fails whenever
the first matched header carries a type code other than `0x01` (pad),
`0x02` (char) or `0x0b` (float). -/
theorem read_makerNotes_spec :
    (∀ (p suffix : List Nat) (blocks : List Block),
      blocks.length = 11 →
      (∀ k (hk : k < blocks.length), wellFormedBlock (1 + k) (blocks.get ⟨k, hk⟩)) →
      (∀ c ∈ p, c ≠ 1) →
      ∃ v, read_makerNotes (p ++ ((blocks.map Block.encode).flatten ++ suffix)) =
        .ok v ∧ allPopulated v) ∧
    (∀ (buf : List Nat) (vals : Values) (i nh : Nat),
      (∀ j, i ≤ j → ∀ (hj : j < buf.length), buf[j] ≠ nh) →
      readMakerNotesAux buf vals i nh = .error .indexError) ∧
    (∀ (buf : List Nat) (vals : Values) (i nh j t : Nat) (f : Field),
      tagField nh = some f → i ≤ j → ∀ (hj : j < buf.length), buf[j] = nh →
      (∀ m, i ≤ m → m < j → ∀ (hm : m < buf.length), buf[m] ≠ nh) →
      buf[j + 2]? = some t → t ≠ 1 → t ≠ 2 → t ≠ 11 →
      ∃ e, readMakerNotesAux buf vals i nh = .error e) := by
  refine ⟨?_, readAux_tag_missing, ?_⟩
  · intro p suffix blocks hlen hwf hp
    rw [read_makerNotes, readAux_skip_prefix _ _ _ _ hp]
    have hcons : ∃ v, readMakerNotesAux
        (p ++ ((blocks.map Block.encode).flatten ++ suffix)) initValues p.length 1 =
        .ok v ∧ nonesCount v = 0 := by
      apply readAux_consume blocks p suffix initValues 1
      · intro h; rw [h] at hlen; simp at hlen
      · exact hwf
      · intro k hk
        rw [hlen] at hk
        interval_cases k
        · exact ⟨.MAKE, rfl, rfl⟩
        · exact ⟨.UNKNOWN, rfl, rfl⟩
        · exact ⟨.SPEED_X, rfl, rfl⟩
        · exact ⟨.SPEED_Y, rfl, rfl⟩
        · exact ⟨.SPEED_Z, rfl, rfl⟩
        · exact ⟨.PITCH, rfl, rfl⟩
        · exact ⟨.YAW, rfl, rfl⟩
        · exact ⟨.ROLL, rfl, rfl⟩
        · exact ⟨.CAMERA_PITCH, rfl, rfl⟩
        · exact ⟨.CAMERA_YAW, rfl, rfl⟩
        · exact ⟨.CAMERA_ROLL, rfl, rfl⟩
      · rw [hlen]; rfl
    obtain ⟨v, hv, hz⟩ := hcons
    exact ⟨v, hv, nonesCount_zero_allPopulated v hz⟩
  · intro buf vals i nh j t f hf hij hj hmatch hmiss ht2 ht1 htc htf
    rw [readAux_skip_until buf vals nh i j hij (le_of_lt hj) hmiss]
    rw [readAux_unfold, dif_pos hj, if_pos hmatch]
    simp only [hf, ht2]
    by_cases hnb : ((buf.drop (j + 4)).take 4).length = 4
    · rw [if_pos hnb]
      have hts : typeSize t (le32 ((buf.drop (j + 4)).take 4)) = none := by
        simp [typeSize, ht1, htc, htf]
      simp only [hts]
      exact ⟨.valueError, rfl⟩
    · rw [if_neg hnb]
      exact ⟨.structError, rfl⟩

/-- Eleven adjacent well-formed pad blocks with tags `0x01 .. 0x0b`. -/
def elevenPadBlocks : List Block :=
  [⟨1, 0, 1, 0, 0, []⟩, ⟨2, 0, 1, 0, 0, []⟩, ⟨3, 0, 1, 0, 0, []⟩,
   ⟨4, 0, 1, 0, 0, []⟩, ⟨5, 0, 1, 0, 0, []⟩, ⟨6, 0, 1, 0, 0, []⟩,
   ⟨7, 0, 1, 0, 0, []⟩, ⟨8, 0, 1, 0, 0, []⟩, ⟨9, 0, 1, 0, 0, []⟩,
   ⟨10, 0, 1, 0, 0, []⟩, ⟨11, 0, 1, 0, 0, []⟩]

/-- Witness for C1: a concrete well-formed 88-byte buffer decodes with
all fields populated; a buffer without the tag byte raises `IndexError`;
a matched header with unknown type code `0x07` raises an error. -/
theorem read_makerNotes_spec_witness :
    (elevenPadBlocks.length = 11 ∧
      (∀ k (hk : k < elevenPadBlocks.length),
        wellFormedBlock (1 + k) (elevenPadBlocks.get ⟨k, hk⟩)) ∧
      ∃ v, read_makerNotes
          ([] ++ ((elevenPadBlocks.map Block.encode).flatten ++ [])) =
        .ok v ∧ allPopulated v) ∧
    ((∀ j, 0 ≤ j → ∀ (hj : j < [0, 0].length), [0, 0][j] ≠ 1) ∧
      readMakerNotesAux [0, 0] initValues 0 1 = .error .indexError) ∧
    (((7 : Nat) ≠ 1 ∧ (7 : Nat) ≠ 2 ∧ (7 : Nat) ≠ 11) ∧
      ∃ e, readMakerNotesAux [1, 0, 7, 0, 0, 0, 0, 0] initValues 0 1 = .error e) := by
  refine ⟨⟨rfl, by decide, ?_⟩, ⟨?_, ?_⟩, ⟨by decide, ?_⟩⟩
  · exact read_makerNotes_spec.1 [] [] elevenPadBlocks rfl (by decide) (by simp)
  · intro j _ hj
    have hj2 : j < 2 := by simpa using hj
    interval_cases j <;> simp
  · exact read_makerNotes_spec.2.1 [0, 0] initValues 0 1
      (by intro j _ hj
          have hj2 : j < 2 := by simpa using hj
          interval_cases j <;> simp)
  · exact read_makerNotes_spec.2.2 [1, 0, 7, 0, 0, 0, 0, 0] initValues 0 1 0 7 .MAKE
      rfl le_rfl (by decide) rfl
      (fun m _ hm2 => absurd hm2 (by omega)) rfl
      (by decide) (by decide) (by decide)

theorem getElem?_last_eq_getLastD (l : List (List Nat)) (h : 0 < l.length) :
    l[l.length - 1]? = some (l.getLastD []) := by
  cases l with
  | nil => simp at h
  | cons a t =>
    rw [List.getLastD_eq_getLast?, ← List.getLast?_eq_getElem?]
    cases hx : (a :: t).getLast? with
    | none => simp at hx
    | some v => rfl

/-- C8: for a field whose header declares the float type code `0x0b`
with element count `num ≥ 1`, `read_makerNotes` stores as the field's
value only the last element (index `num - 1`) of the decoded
little-endian float payload — the final 4-byte group — discarding the
preceding `num - 1` elements. -/
theorem read_makerNotes_float_keeps_last (pre rest payload : List Nat)
    (num fill1 fill3 nh : Nat) (f : Field) (vals : Values)
    (hf : tagField nh = some f) (hnum1 : 1 ≤ num) (hnum : num < 4294967296)
    (hlen : payload.length = 4 * num) :
    (chunks4 payload)[num - 1]? = some ((chunks4 payload).getLastD []) ∧
    readMakerNotesAux
        (pre ++ ((Block.mk nh fill1 11 fill3 num payload).encode ++ rest))
        vals pre.length nh =
      if nonesCount (setField f
          (.floatVal (le32 ((chunks4 payload).getLastD []))) vals) = 0 then
        .ok (setField f (.floatVal (le32 ((chunks4 payload).getLastD []))) vals)
      else
        readMakerNotesAux
          (pre ++ ((Block.mk nh fill1 11 fill3 num payload).encode ++ rest))
          (setField f (.floatVal (le32 ((chunks4 payload).getLastD []))) vals)
          (pre.length + 8 + payload.length) (nh + 1) := by
  have hchunks : (chunks4 payload).length = num := by
    rw [chunks4_length, hlen]
    omega
  have hlast : (chunks4 payload)[num - 1]? = some ((chunks4 payload).getLastD []) := by
    rw [← hchunks]
    exact getElem?_last_eq_getLastD _ (by omega)
  have hwf : wellFormedBlock nh (Block.mk nh fill1 11 fill3 num payload) :=
    ⟨rfl, hnum, Or.inr (Or.inr ⟨rfl, hlen, hnum1⟩)⟩
  have hbv : blockValue (Block.mk nh fill1 11 fill3 num payload) =
      .floatVal (le32 ((chunks4 payload).getLastD [])) := by
    have hdp := decodePayload_wf nh (Block.mk nh fill1 11 fill3 num payload) hwf
    have hdirect : decodePayload 11 num payload =
        .ok (.floatVal (le32 ((chunks4 payload).getLastD []))) := by
      simp [decodePayload, hlast]
    rw [hdirect] at hdp
    exact (Except.ok.injEq _ _ ▸ hdp).symm
  refine ⟨hlast, ?_⟩
  have := readAux_parse_block pre rest (Block.mk nh fill1 11 fill3 num payload)
    vals nh f hwf hf
  rw [hbv] at this
  exact this

/-- C9: whenever `read_makerNotes` is entered with a values dictionary
that has no `None` entry, it returns right after decoding a single field:
the first occurrence of the starting header.  The result keeps every
other entry exactly as passed in — so a second call reusing the shared
mutable default dictionary (modelled by feeding the first call's result
back in) decodes only the first matched field and returns the remaining
ten entries left over from the previous call. -/
theorem read_makerNotes_no_none_single_field (p rest : List Nat) (b : Block)
    (vals : Values) (nh : Nat) (f : Field)
    (hzero : nonesCount vals = 0) (hp : ∀ c ∈ p, c ≠ nh)
    (hwf : wellFormedBlock nh b) (hf : tagField nh = some f) :
    read_makerNotes (p ++ (b.encode ++ rest)) vals 0 nh =
      .ok (setField f (blockValue b) vals) := by
  rw [read_makerNotes, readAux_skip_prefix _ _ _ _ hp]
  rw [readAux_parse_block p rest b vals nh f hwf hf]
  have hle := nonesCount_setField_le f (blockValue b) vals
  rw [if_pos (by omega)]

/-- Witness for C8: a float block with two elements stores only the
second (last) 4-byte group. -/
theorem read_makerNotes_float_keeps_last_witness :
    (tagField 1 = some Field.MAKE ∧ (1 : Nat) ≤ 2 ∧ (2 : Nat) < 4294967296 ∧
      ([1, 0, 0, 0, 2, 0, 0, 0] : List Nat).length = 4 * 2) ∧
    ((chunks4 [1, 0, 0, 0, 2, 0, 0, 0])[2 - 1]? =
        some ((chunks4 [1, 0, 0, 0, 2, 0, 0, 0]).getLastD []) ∧
      readMakerNotesAux
          (([] : List Nat) ++
            ((Block.mk 1 0 11 0 2 [1, 0, 0, 0, 2, 0, 0, 0]).encode ++ []))
          initValues ([] : List Nat).length 1 =
        if nonesCount (setField Field.MAKE
            (.floatVal (le32 ((chunks4 [1, 0, 0, 0, 2, 0, 0, 0]).getLastD [])))
            initValues) = 0 then
          .ok (setField Field.MAKE
            (.floatVal (le32 ((chunks4 [1, 0, 0, 0, 2, 0, 0, 0]).getLastD [])))
            initValues)
        else
          readMakerNotesAux
            (([] : List Nat) ++
              ((Block.mk 1 0 11 0 2 [1, 0, 0, 0, 2, 0, 0, 0]).encode ++ []))
            (setField Field.MAKE
              (.floatVal (le32 ((chunks4 [1, 0, 0, 0, 2, 0, 0, 0]).getLastD [])))
              initValues)
            (([] : List Nat).length + 8 + ([1, 0, 0, 0, 2, 0, 0, 0] : List Nat).length)
            (1 + 1)) :=
  ⟨⟨rfl, by decide, by decide, by decide⟩,
    read_makerNotes_float_keeps_last [] [] [1, 0, 0, 0, 2, 0, 0, 0] 2 0 0 1
      Field.MAKE initValues rfl (by decide) (by decide) (by decide)⟩

/-- A values dictionary with no `None` entry, as left behind by a
previous complete decode. -/
def allSomeValues : Values :=
  ⟨some .padVal, some .padVal, some .padVal, some .padVal, some .padVal,
   some .padVal, some .padVal, some .padVal, some .padVal, some .padVal,
   some .padVal⟩

/-- Witness for C9: entering with a fully populated dictionary, the call
decodes just the first matched block and returns everything else
untouched. -/
theorem read_makerNotes_no_none_single_field_witness :
    (nonesCount allSomeValues = 0 ∧
      wellFormedBlock 1 (Block.mk 1 0 1 0 0 []) ∧
      tagField 1 = some Field.MAKE) ∧
    read_makerNotes (([] : List Nat) ++ ((Block.mk 1 0 1 0 0 []).encode ++ []))
        allSomeValues 0 1 =
      .ok (setField Field.MAKE (blockValue (Block.mk 1 0 1 0 0 [])) allSomeValues) :=
  ⟨⟨by decide, by decide, rfl⟩,
    read_makerNotes_no_none_single_field [] [] (Block.mk 1 0 1 0 0 [])
      allSomeValues 1 Field.MAKE (by decide) (by simp) (by decide) rfl⟩

/-! ### C2 — Euler → rotation → Euler round trip -/

theorem rotX_orth (r : ℝ) : (rotX r).transpose * rotX r = 1 := by
  ext i j
  fin_cases i <;> fin_cases j <;>
    simp [rotX, Matrix.mul_apply, Fin.sum_univ_three, Matrix.one_apply,
      Matrix.transpose_apply, Matrix.vecHead, Matrix.vecTail] <;>
    first
      | ring1
      | linear_combination Real.sin_sq_add_cos_sq r

theorem rotY_orth (p : ℝ) : (rotY p).transpose * rotY p = 1 := by
  ext i j
  fin_cases i <;> fin_cases j <;>
    simp [rotY, Matrix.mul_apply, Fin.sum_univ_three, Matrix.one_apply,
      Matrix.transpose_apply, Matrix.vecHead, Matrix.vecTail] <;>
    first
      | ring1
      | linear_combination Real.sin_sq_add_cos_sq p

theorem rotZ_orth (w : ℝ) : (rotZ w).transpose * rotZ w = 1 := by
  ext i j
  fin_cases i <;> fin_cases j <;>
    simp [rotZ, Matrix.mul_apply, Fin.sum_univ_three, Matrix.one_apply,
      Matrix.transpose_apply, Matrix.vecHead, Matrix.vecTail] <;>
    first
      | ring1
      | linear_combination Real.sin_sq_add_cos_sq w

theorem cancel_orth {A M : Matrix (Fin 3) (Fin 3) ℝ} (h : A.transpose * A = 1) :
    A.transpose * (A * M) = M := by
  rw [← Matrix.mul_assoc, h, Matrix.one_mul]

theorem euler2rot_orth (r p w : ℝ) :
    (euler2rot r p w).transpose * euler2rot r p w = 1 := by
  unfold euler2rot
  simp only [Matrix.transpose_mul, Matrix.mul_assoc]
  rw [cancel_orth (rotZ_orth w), cancel_orth (rotY_orth p)]
  exact rotX_orth r

/-- The orthogonality self-check of `rot2euler` passes on every matrix
produced by `euler2rot` (exactly, over the reals). -/
theorem isRotationMatrix_euler2rot (r p w : ℝ) :
    isRotationMatrix (euler2rot r p w) := by
  rw [isRotationMatrix, euler2rot_orth, sub_self]
  simp only [Matrix.zero_apply, ne_eq, OfNat.ofNat_ne_zero, not_false_eq_true,
    zero_pow, Finset.sum_const_zero, Real.sqrt_zero]
  norm_num

/-- The closed form of `Rz @ Ry @ Rx`. -/
theorem euler2rot_apply (r p w : ℝ) : euler2rot r p w =
    !![Real.cos w * Real.cos p,
       Real.cos w * Real.sin p * Real.sin r - Real.sin w * Real.cos r,
       Real.cos w * Real.sin p * Real.cos r + Real.sin w * Real.sin r;
       Real.sin w * Real.cos p,
       Real.sin w * Real.sin p * Real.sin r + Real.cos w * Real.cos r,
       Real.sin w * Real.sin p * Real.cos r - Real.cos w * Real.sin r;
       -Real.sin p, Real.cos p * Real.sin r, Real.cos p * Real.cos r] := by
  unfold euler2rot rotX rotY rotZ
  ext i j
  fin_cases i <;> fin_cases j <;>
    simp [Matrix.mul_apply, Fin.sum_univ_three, Matrix.vecHead, Matrix.vecTail] <;>
    ring

theorem arctan2_cos_sin (c θ : ℝ) (hc : 0 < c)
    (hθ : θ ∈ Set.Ioc (-Real.pi) Real.pi) :
    arctan2 (c * Real.sin θ) (c * Real.cos θ) = θ := by
  unfold arctan2
  have hfac : ((c * Real.cos θ : ℝ) : ℂ) + ((c * Real.sin θ : ℝ) : ℂ) * Complex.I =
      (c : ℂ) * (((Real.cos θ : ℝ) : ℂ) + ((Real.sin θ : ℝ) : ℂ) * Complex.I) := by
    push_cast
    ring
  rw [hfac, Complex.arg_real_mul _ hc, Complex.ofReal_cos, Complex.ofReal_sin,
    Complex.arg_cos_add_sin_mul_I hθ]

/-- C2: for roll and yaw in `(-π, π]`, pitch in `(-π/2, π/2)`, and
`cos(pitch)` at least the `1e-6` singularity threshold, composing
`euler2rot` with `rot2euler` returns the original three angles — exactly,
in the real-number idealisation of the float trigonometry, hence within
floating-point tolerance. -/
theorem euler_roundtrip (r p w : ℝ)
    (hr : r ∈ Set.Ioc (-Real.pi) Real.pi)
    (hp : p ∈ Set.Ioo (-(Real.pi / 2)) (Real.pi / 2))
    (hw : w ∈ Set.Ioc (-Real.pi) Real.pi)
    (hcp : (1e-6 : ℝ) ≤ Real.cos p) :
    rot2euler (euler2rot r p w) = some (r, p, w) := by
  have hcp0 : (0 : ℝ) < Real.cos p := lt_of_lt_of_le (by norm_num) hcp
  have hrot := isRotationMatrix_euler2rot r p w
  have hE := euler2rot_apply r p w
  have h00 : euler2rot r p w 0 0 = Real.cos w * Real.cos p := by rw [hE]; simp
  have h10 : euler2rot r p w 1 0 = Real.sin w * Real.cos p := by rw [hE]; simp
  have h20 : euler2rot r p w 2 0 = -Real.sin p := by rw [hE]; simp
  have h21 : euler2rot r p w 2 1 = Real.cos p * Real.sin r := by rw [hE]; simp
  have h22 : euler2rot r p w 2 2 = Real.cos p * Real.cos r := by rw [hE]; simp
  have hsum : Real.cos w * Real.cos p * (Real.cos w * Real.cos p) +
      Real.sin w * Real.cos p * (Real.sin w * Real.cos p) = Real.cos p ^ 2 := by
    linear_combination Real.cos p ^ 2 * Real.sin_sq_add_cos_sq w
  have hsy : Real.sqrt (euler2rot r p w 0 0 * euler2rot r p w 0 0 +
      euler2rot r p w 1 0 * euler2rot r p w 1 0) = Real.cos p := by
    rw [h00, h10, hsum, Real.sqrt_sq hcp0.le]
  have hpioc : p ∈ Set.Ioc (-Real.pi) Real.pi := by
    constructor
    · have : -Real.pi < -(Real.pi / 2) := by
        have := Real.pi_pos
        linarith
      exact lt_trans this hp.1
    · have : Real.pi / 2 < Real.pi := by
        have := Real.pi_pos
        linarith
      exact le_of_lt (lt_trans hp.2 this)
  unfold rot2euler
  rw [if_pos hrot]
  simp only []
  rw [hsy, if_neg (not_lt.mpr hcp)]
  have hroll : arctan2 (euler2rot r p w 2 1) (euler2rot r p w 2 2) = r := by
    rw [h21, h22]
    exact arctan2_cos_sin (Real.cos p) r hcp0 hr
  have hpitch : arctan2 (-euler2rot r p w 2 0) (Real.cos p) = p := by
    rw [h20, neg_neg]
    have h1 : Real.sin p = 1 * Real.sin p := (one_mul _).symm
    have h2 : Real.cos p = 1 * Real.cos p := (one_mul _).symm
    rw [h1, h2]
    exact arctan2_cos_sin 1 p one_pos hpioc
  have hyaw : arctan2 (euler2rot r p w 1 0) (euler2rot r p w 0 0) = w := by
    rw [h00, h10, mul_comm (Real.sin w) (Real.cos p), mul_comm (Real.cos w) (Real.cos p)]
    exact arctan2_cos_sin (Real.cos p) w hcp0 hw
  rw [hroll, hpitch, hyaw]

/-- Witness for C2 at the zero angles. -/
theorem euler_roundtrip_witness :
    ((0 : ℝ) ∈ Set.Ioc (-Real.pi) Real.pi ∧
      (0 : ℝ) ∈ Set.Ioo (-(Real.pi / 2)) (Real.pi / 2) ∧
      (1e-6 : ℝ) ≤ Real.cos 0) ∧
    rot2euler (euler2rot 0 0 0) = some (0, 0, 0) := by
  have hpi := Real.pi_pos
  have h1 : (0 : ℝ) ∈ Set.Ioc (-Real.pi) Real.pi := by
    constructor <;> [linarith; linarith]
  have h2 : (0 : ℝ) ∈ Set.Ioo (-(Real.pi / 2)) (Real.pi / 2) := by
    constructor <;> [linarith; linarith]
  have h3 : (1e-6 : ℝ) ≤ Real.cos 0 := by
    rw [Real.cos_zero]
    norm_num
  exact ⟨⟨h1, h2, h3⟩, euler_roundtrip 0 0 0 h1 h2 h1 h3⟩

end UasTrajectory
